import Mathlib

/-!
Verification development for the `@_apparatus_/fetch-tools` repository.

The repository contains an untyped fetch client (`src/client.ts`, the `call`
function) and a typed client variant whose runtime implementation is absent
from the sources (only its type declarations and its test suite are present).
Definitions below are shallow embeddings of `src/client.ts`; definitions for
the typed variant are modelled from the specification and are marked as such
in their doc comments.
-/

namespace FetchTools

/-- Status classification of `src/client.ts` lines 226-228: a status matches a
set when the set contains the exact code or the code's hundreds digit
(`block = ~~(status / 100)`). -/
def matchesSet (set : List Nat) (status : Nat) : Bool :=
  set.contains status || set.contains (status / 100)

/-- A received HTTP response, as observed by `call`: its status code, its
`content-type` header (absent when the header is missing) and its raw body. -/
structure Resp where
  status : Nat
  contentType : Option String
  raw : String
deriving DecidableEq, Repr

/-- The outcome of one `globalThis.fetch(request)` transport call
(`src/client.ts` line 221): either a response or a thrown value. -/
inductive FetchResult where
  | ok (r : Resp)
  | err (e : String)
deriving DecidableEq, Repr

/-- Decoded response body. Constructors tag which platform decoder `call`
selected (`response.text()`, `response.json()`, `response.formData()`,
`URLSearchParams` parsing, `response.blob()`), carrying the raw text the
decoder consumed; `stream` is the unconsumed `response.body` handle. -/
inductive Decoded where
  | text (raw : String)
  | json (raw : String)
  | formData (raw : String)
  | params (raw : String)
  | blob (contentType : String) (raw : String)
  | stream
deriving DecidableEq, Repr

/-- Whether a character list starts with the given character list. -/
def charsStartWith : List Char → List Char → Bool
  | _, [] => true
  | [], _ :: _ => false
  | c :: cs, p :: ps => c == p && charsStartWith cs ps

/-- `s.startsWith(p)` over the underlying character data. -/
def strStarts (s p : String) : Bool := charsStartWith s.data p.data

/-- `type?.startsWith(p)` on an optional content-type header. -/
def ctStartsWith (ct : Option String) (p : String) : Bool :=
  match ct with
  | some t => strStarts t p
  | none => false

/-- Body decoding of `src/client.ts` lines 233-241: dispatch on the
content-type prefix (`text/plain`, `application/json`, `multipart/form-data`,
otherwise blob); with `parse` false the raw `response.body` stream is kept.
The blob reports the response's own content-type (empty when absent). -/
def decodeFetch (parse : Bool) (r : Resp) : Decoded :=
  if parse then
    if ctStartsWith r.contentType "text/plain" then .text r.raw
    else if ctStartsWith r.contentType "application/json" then .json r.raw
    else if ctStartsWith r.contentType "multipart/form-data" then .formData r.raw
    else .blob (r.contentType.getD "") r.raw
  else .stream

/-- Modelled from the spec: the typed client variant's response body decoding.
The implementation file of the typed client is absent from the sources (only
its type declarations and its tests are present). Per the spec it dispatches
on the content-type prefix in priority order `text/plain`, `application/json`,
`multipart/form-data`, `application/x-www-form-urlencoded`, and anything else
(including an absent content-type) becomes a blob tagging its own
content-type, a generic octet-stream type when none is present; with `parse`
false the raw unconsumed body stream handle is returned. -/
def decodeTyped (parse : Bool) (r : Resp) : Decoded :=
  if parse then
    if ctStartsWith r.contentType "text/plain" then .text r.raw
    else if ctStartsWith r.contentType "application/json" then .json r.raw
    else if ctStartsWith r.contentType "multipart/form-data" then .formData r.raw
    else if ctStartsWith r.contentType "application/x-www-form-urlencoded" then .params r.raw
    else .blob (r.contentType.getD "application/octet-stream") r.raw
  else .stream

/-! ## URL model for `new URL(path, base)` (`src/client.ts` line 179)

The untyped client delegates URL resolution to the WHATWG URL standard via
`new URL(path, base)`. The model below embeds the standard's path resolution
(relative state and path state of the basic URL parser) for http-style URLs:
a path is a list of segments, a trailing slash being a final empty segment. -/

/-- A parsed absolute URL: scheme, host and the path as a segment list
(`/hello/` is `["hello", ""]`, the root `/` is `[""]`). Query and fragment do
not occur in the verified inputs and are not modelled. -/
structure Url where
  scheme : String
  host : String
  path : List String
deriving DecidableEq, Repr

/-- Serialize a URL back to its string form. -/
def serializeUrl (u : Url) : String :=
  u.scheme ++ "://" ++ u.host ++ "/" ++ String.intercalate "/" u.path

/-- "Shorten a URL's path": remove the last segment, if any (WHATWG). -/
def shortenPath (p : List String) : List String := p.dropLast

/-- WHATWG path state: process relative-reference segments against an
accumulated path. A `..` segment shortens the path, a `.` segment is skipped;
at the final segment (EOF terminator) a dot segment leaves a trailing empty
segment, giving the trailing slash of a directory. -/
def processSegs (acc : List String) : List String → List String
  | [] => acc
  | [seg] =>
    if seg = ".." then shortenPath acc ++ [""]
    else if seg = "." then acc ++ [""]
    else acc ++ [seg]
  | seg :: rest =>
    if seg = ".." then processSegs (shortenPath acc) rest
    else if seg = "." then processSegs acc rest
    else processSegs (acc ++ [seg]) rest

/-- Split a character list at every `/`, the way `String.splitOn "/"` does
(an empty input gives one empty piece). -/
def splitSlash : List Char → List (List Char)
  | [] => [[]]
  | c :: rest =>
    if c = '/' then [] :: splitSlash rest
    else
      match splitSlash rest with
      | [] => [[c]]
      | seg :: segs => (c :: seg) :: segs

/-- The segments of a relative-reference string, as strings. -/
def relSegs (s : String) : List String := (splitSlash s.data).map (fun l => String.mk l)

/-- Break a character list at the first `://` occurrence, returning the part
before it and the part after it. -/
def breakScheme : List Char → Option (List Char × List Char)
  | [] => none
  | ':' :: '/' :: '/' :: rest => some ([], rest)
  | c :: rest => (breakScheme rest).map (fun p => (c :: p.1, p.2))

/-- Whether a character list is a valid URL scheme (an ASCII alpha followed by
alphanumerics, `+`, `-` or `.`). -/
def validScheme : List Char → Bool
  | [] => false
  | c :: rest => c.isAlpha && rest.all (fun d => d.isAlphanum || d == '+' || d == '-' || d == '.')

/-- Parse an absolute http-style URL string `scheme://host/seg/...` into a
`Url`; `none` when the string is not of that shape. -/
def parseHttpUrl (s : String) : Option Url :=
  match breakScheme s.data with
  | some (scheme, rest) =>
    if validScheme scheme then
      match splitSlash rest with
      | [] => none
      | [host] => some ⟨String.mk scheme, String.mk host, [""]⟩
      | host :: pathSegs => some ⟨String.mk scheme, String.mk host,
          processSegs [] (pathSegs.map (fun l => String.mk l))⟩
    else none
  | none => none

/-- The WHATWG resolution `new URL(path, base)` used at `src/client.ts`
line 179, for the reference shapes the client receives: an absolute URL is
parsed on its own; an empty path keeps the base's path; a path starting with
`/` replaces the whole path; otherwise the base path is shortened and the
relative segments are merged onto it. -/
def newURL (path : String) (base : Url) : Url :=
  match parseHttpUrl path with
  | some u => u
  | none =>
    match path.data with
    | [] => base
    | c :: rest =>
      if c = '/' then
        { base with path := processSegs [] ((splitSlash rest).map (fun l => String.mk l)) }
      else
        { base with path := processSegs (shortenPath base.path) (relSegs path) }

/-- Resolution of a path string against a base URL string, mirroring
`new URL(path, call.url ?? client.url)`: `none` when the base does not parse
as an absolute URL. -/
def resolveFetch (base path : String) : Option String :=
  (parseHttpUrl base).map (fun b => serializeUrl (newURL path b))

/-! ## Typed client variant: URL resolution, path templates, body
serialization (modelled from the spec)

The typed client's runtime implementation is absent from the sources; only
its type declarations (`ClientRequest`, which documents the axios-like URL
resolution and the `{key}` path-template syntax) and its test suite are
present. The following definitions are modelled from the specification. -/

/-- Drop every trailing `/` character of a string. -/
def stripTrailingSlashes (s : String) : String :=
  String.mk ((s.data.reverse.dropWhile (fun c => c == '/')).reverse)

/-- Drop every leading `/` character of a string. -/
def stripLeadingSlashes (s : String) : String :=
  String.mk (s.data.dropWhile (fun c => c == '/'))

/-- After a valid scheme body, an absolute URL continues with `://`. -/
def schemeThenSlashes : List Char → Bool
  | ':' :: '/' :: '/' :: _ => true
  | c :: rest => (c.isAlphanum || c == '+' || c == '-' || c == '.') && schemeThenSlashes rest
  | [] => false

/-- Whether a path matches the absolute-URL pattern: an optional scheme
followed by `//`. -/
def isAbsoluteURL (s : String) : Bool :=
  match s.data with
  | '/' :: '/' :: _ => true
  | c :: rest => c.isAlpha && schemeThenSlashes rest
  | [] => false

/-- Modelled from the spec: the typed client's axios-like URL resolution,
whose implementation file is absent from the sources. A path matching the
absolute-URL pattern is used verbatim; an empty path resolves to the base URL
unchanged; otherwise trailing slashes of the base and leading slashes of the
path are stripped and the two are joined with exactly one slash. -/
def resolveAxios (baseUrl path : String) : String :=
  if isAbsoluteURL path then path
  else if path = "" then baseUrl
  else stripTrailingSlashes baseUrl ++ "/" ++ stripLeadingSlashes path

/-- Hexadecimal digit characters, upper case. -/
def hexDigit (n : Nat) : Char :=
  if n < 10 then Char.ofNat (48 + n) else Char.ofNat (55 + n % 16)

/-- Characters `encodeURIComponent` leaves unescaped: alphanumerics and
`- _ . ! ~ * ( )` and the apostrophe (code 39). -/
def uriUnescaped (c : Char) : Bool :=
  c.isAlphanum || c == '-' || c == '_' || c == '.' || c == '!' || c == '~' ||
    c == '*' || c == '(' || c == ')' || c == Char.ofNat 39

/-- Percent-encode one character the way `encodeURIComponent` does: keep it
when unescaped, otherwise emit `%XY` for each of its UTF-8 bytes. -/
def encodeChar (c : Char) : List Char :=
  if uriUnescaped c then [c]
  else (String.utf8EncodeChar c).flatMap
    (fun b => ['%', hexDigit (b.toNat / 16), hexDigit (b.toNat % 16)])

/-- `encodeURIComponent` over a whole string. -/
def encodeURIComponent (s : String) : String :=
  String.mk (s.data.flatMap encodeChar)

/-- Look a name up in the path-parameter map. -/
def lookupParam (ps : List (String × String)) (name : String) : Option String :=
  match ps.find? (fun p => p.1 == name) with
  | some p => some p.2
  | none => none

/-- The replacement text for a `{name}` placeholder: the URI-encoded value
from the path-parameter map, or the placeholder kept intact when the map has
no matching value. -/
def replFor (ps : List (String × String)) (name : List Char) : List Char :=
  match lookupParam ps (String.mk name) with
  | some v => (encodeURIComponent v).data
  | none => '{' :: name ++ ['}']

/-- Modelled from the spec: substitution of `{name}` path-template
placeholders (typed client, implementation file absent from the sources).
Scanning left to right; the second argument is `none` outside a placeholder
and `some acc` inside one, `acc` holding the name read so far in reverse.
Each `{` with a closing `}` delimits a placeholder name replaced via
`replFor`; a `{` with no closing `}` leaves the rest of the input
untouched. -/
def substScan (ps : List (String × String)) : List Char → Option (List Char) → List Char
  | [], none => []
  | [], some acc => '{' :: acc.reverse
  | c :: rest, none =>
    if c = '{' then substScan ps rest (some [])
    else c :: substScan ps rest none
  | c :: rest, some acc =>
    if c = '}' then replFor ps acc.reverse ++ substScan ps rest none
    else substScan ps rest (some (c :: acc))

/-- Placeholder substitution on a string template. -/
def substitutePath (ps : List (String × String)) (template : String) : String :=
  String.mk (substScan ps template.data none)

/-- Modelled from the spec: the typed client's full URL resolution — path
template placeholders are substituted in the base URL and in the path before
the axios-like resolution runs. -/
def urlResolveTyped (ps : List (String × String)) (baseUrl path : String) : String :=
  resolveAxios (substitutePath ps baseUrl) (substitutePath ps path)

/-- A JSON value, for the typed client's body serialization. -/
inductive Jx where
  | null
  | bool (b : Bool)
  | num (n : Int)
  | str (s : String)
  | arr (xs : List Jx)
  | obj (fields : List (String × Jx))

/-- JSON escaping is not needed for the verified inputs; field and string
contents are emitted between plain double quotes. -/
def jsonQuote (s : String) : String := "\"" ++ s ++ "\""

mutual

/-- `JSON.stringify` with no extra whitespace. -/
def jsonStringify : Jx → String
  | .null => "null"
  | .bool true => "true"
  | .bool false => "false"
  | .num n => toString n
  | .str s => jsonQuote s
  | .arr xs => "[" ++ String.intercalate "," (jsonStringifyList xs) ++ "]"
  | .obj fields => "\x7b" ++ String.intercalate "," (jsonStringifyFields fields) ++ "\x7d"

/-- Stringify each element of a JSON array. -/
def jsonStringifyList : List Jx → List String
  | [] => []
  | x :: xs => jsonStringify x :: jsonStringifyList xs

/-- Stringify each field of a JSON object. -/
def jsonStringifyFields : List (String × Jx) → List String
  | [] => []
  | (k, v) :: fs => (jsonQuote k ++ ":" ++ jsonStringify v) :: jsonStringifyFields fs

end

/-- The body shapes of the typed client's request, following the spec's
enumeration: a plain mapping, an ordered sequence, a boxed string, number or
boolean, null, or any other pre-formed payload that passes through
unchanged. -/
inductive ReqBody where
  | mapping (fields : List (String × Jx))
  | sequence (xs : List Jx)
  | boxedStr (s : String)
  | boxedNum (n : Int)
  | boxedBool (b : Bool)
  | nullBody
  | preformed (payload : String)

/-- Whether a body shape is serialized as JSON. -/
def isJsonLike : ReqBody → Bool
  | .preformed _ => false
  | _ => true

/-- The JSON value of a JSON-like body (`preformed` is mapped to `null` but
is never serialized as JSON). -/
def jsonOf : ReqBody → Jx
  | .mapping fields => .obj fields
  | .sequence xs => .arr xs
  | .boxedStr s => .str s
  | .boxedNum n => .num n
  | .boxedBool b => .bool b
  | .nullBody => .null
  | .preformed _ => .null

/-- ASCII lower-casing of one character. -/
def lowerChar (c : Char) : Char :=
  if c.isUpper then Char.ofNat (c.toNat + 32) else c

/-- ASCII lower-casing of a string. -/
def lowerStr (s : String) : String := String.mk (s.data.map lowerChar)

/-- Whether a content-type header entry is already present in the merged
headers (header names compared case-insensitively). -/
def hasContentType (headers : List (String × String)) : Bool :=
  headers.any (fun p => lowerStr p.1 == "content-type")

/-- Modelled from the spec: the typed client's body serialization
(implementation file absent from the sources). A JSON-like body is serialized
as JSON text and `content-type: application/json` is set only if no
content-type header is already present in the merged headers; any other shape
passes through unchanged with no header override. -/
def serializeTyped (headers : List (String × String)) :
    ReqBody → String × List (String × String)
  | .preformed payload => (payload, headers)
  | b =>
    (jsonStringify (jsonOf b),
      if hasContentType headers then headers
      else headers ++ [("content-type", "application/json")])

/-! ## The attempt loop of `call` (`src/client.ts` lines 200-245)

The loop is embedded as a recursive function over the remaining attempt
budget. The transport is an oracle `fetchFn : Nat → FetchResult` giving what
`globalThis.fetch(request)` does on each attempt index. The model records
the observables the claims are about: the wait performed before each
attempt (line 216), the `response` variable (which keeps its previous value
across iterations), whether the exit path executed `clearTimeout(handle)`
(line 231), and the loop's outcome. -/

/-- The merged retry-relevant options of `call` (lines 203-206). -/
structure CallCfg where
  retry : Nat
  retryDelay : List Nat
  retryStatus : List Nat
  matchStatus : List Nat
deriving Repr

/-- The wait before an attempt, `src/client.ts` line 216:
`attempt === 0 ? 0 : retryDelay.at(attempt - 1) ?? retryDelay.at(-1)`
(an out-of-range index falls back to the last element; `setTimeout` treats a
missing delay as `0`). -/
def delayFor (retryDelay : List Nat) (attempt : Nat) : Nat :=
  if attempt = 0 then 0 else (retryDelay.get? (attempt - 1)).getD (retryDelay.getLastD 0)

/-- How the attempt loop ended: `threw` is the `throw new FetchError(request,
response, error, undefined, undefined)` at line 223 (carrying the current
value of the `response` variable); `exited` is a normal exit, via `break` or
via the loop guard, with the `response` variable's final value. -/
inductive LoopOutcome where
  | threw (prev : Option Resp) (cause : String)
  | exited (r : Option Resp)
deriving DecidableEq, Repr

/-- Observables of one run of the attempt loop. -/
structure LoopExit where
  outcome : LoopOutcome
  delays : List Nat
  timeoutCleared : Bool
deriving DecidableEq, Repr

/-- One run of the `for` loop of lines 213-231, by recursion on the remaining
attempt budget (`fuel`); `attempt` is the loop counter, `prev` the current
value of the `response` variable, `acc` the waits performed so far (reversed).
On a transport throw the loop is left without reaching the `clearTimeout` of
line 231; on a normal exit (break at line 229 or guard failure) line 231
runs. -/
def loopAux (fetchFn : Nat → FetchResult) (cfg : CallCfg) :
    Nat → Nat → Option Resp → List Nat → LoopExit
  | 0, _, prev, acc => ⟨.exited prev, acc.reverse, true⟩
  | fuel + 1, attempt, prev, acc =>
    let d := delayFor cfg.retryDelay attempt
    match fetchFn attempt with
    | .err e => ⟨.threw prev e, (d :: acc).reverse, false⟩
    | .ok r =>
      if matchesSet cfg.matchStatus r.status || !(matchesSet cfg.retryStatus r.status) then
        ⟨.exited (some r), (d :: acc).reverse, true⟩
      else loopAux fetchFn cfg fuel (attempt + 1) (some r) (d :: acc)

/-- The whole attempt loop: `for (let attempt = 0; attempt <= retry; attempt++)`
runs at most `retry + 1` iterations starting from attempt `0` with the
`response` variable unassigned. -/
def runLoop (fetchFn : Nat → FetchResult) (cfg : CallCfg) : LoopExit :=
  loopAux fetchFn cfg (cfg.retry + 1) 0 none []

/-- The `FetchError` object (`src/client.ts` lines 125-140) as far as its
data fields go: `response`, `error` (the cause), `status` and `body`. -/
structure FetchErrorM where
  response : Option Resp
  error : Option String
  status : Option Nat
  body : Option Decoded
deriving DecidableEq, Repr

/-- The successful result of `call` (line 245): the response after the
response interceptors, its status, and the decoded body. -/
structure FetchResponseM where
  response : Resp
  status : Nat
  body : Decoded
deriving DecidableEq, Repr

/-- The response interceptor chain (lines 243-244): each interceptor may
return a replacement response (`some`) or mutate in place (`none`), in which
case the current response continues (`?? response`). -/
def applyInterceptors (ints : List (Resp → Option Resp)) (r : Resp) : Resp :=
  ints.foldl (fun cur f => (f cur).getD cur) r

/-- `call` after the request is built (`src/client.ts` lines 213-245): run
the attempt loop; a transport throw becomes a `FetchError` with the current
`response` variable, the thrown cause, and no status and no body; otherwise
the final response's body is decoded (line 241), a failed status check throws
a `FetchError` carrying response, the fixed `'status'` cause, status and
decoded body (line 242), and on success the response interceptors run and the
result takes `status` from the intercepted response while `body` is the value
decoded before the interceptors ran (lines 243-245). -/
def runCall (fetchFn : Nat → FetchResult) (cfg : CallCfg) (parse : Bool)
    (ints : List (Resp → Option Resp)) : Except FetchErrorM FetchResponseM :=
  match (runLoop fetchFn cfg).outcome with
  | .threw prev e => .error ⟨prev, some e, none, none⟩
  | .exited none => .error ⟨none, none, none, none⟩
  | .exited (some r) =>
    let body := decodeFetch parse r
    if matchesSet cfg.matchStatus r.status then
      let r2 := applyInterceptors ints r
      .ok ⟨r2, r2.status, body⟩
    else .error ⟨some r, some "status", some r.status, some body⟩

/-! ## Concrete instances used by witnesses and counterexamples -/

/-- A 500 response with no content-type and an empty body. -/
def resp500 : Resp := ⟨500, none, ""⟩

/-- A 200 JSON response with body `[]`. -/
def respJson : Resp := ⟨200, some "application/json", "[]"⟩

/-- A transport oracle whose first attempt receives a 500 response and whose
second attempt throws. -/
def fetchFnRetryThenThrow : Nat → FetchResult :=
  fun k => if k = 0 then .ok resp500 else .err "boom"

/-- A transport oracle that always throws. -/
def fetchFnAlwaysThrow : Nat → FetchResult := fun _ => .err "netdown"

/-- A transport oracle that always delivers the 200 JSON response. -/
def fetchFnJson : Nat → FetchResult := fun _ => .ok respJson

/-- One retry, zero delay, retry on 5xx, succeed on 2xx. -/
def cfgRetryOne : CallCfg := ⟨1, [0], [5], [2]⟩

/-- The documented defaults: no retry, delays `[100, 200, 400, 800, 1600]`,
retry on `[408, 425, 429, 5]`, succeed on `[0, 2]`. -/
def cfgDefault : CallCfg := ⟨0, [100, 200, 400, 800, 1600], [408, 425, 429, 5], [0, 2]⟩

/-- A response interceptor that replaces the response wholesale. -/
def intsReplace : List (Resp → Option Resp) := [fun _ => some ⟨299, none, "replaced"⟩]

/-! ## Theorems -/

/-- C3 counterexample: with base `http://api.example.com/hello/` (trailing
slash), the empty path does not resolve to `.../hello` — `new URL` keeps the
base's path verbatim, `.../hello/`. -/
theorem c3_counterexample :
    resolveFetch "http://api.example.com/hello/" "" ≠ some "http://api.example.com/hello" := by
  decide

/-- C3 (amended): with base `http://api.example.com`, the paths `''`, `'.'`
and `'./'` resolve to the base root; with base `http://api.example.com/hello`
(no trailing slash), `''` resolves to `/hello` and `'world'` to `/world` (a
sibling); with base `http://api.example.com/hello/` (trailing slash), `''`
resolves to `/hello/` (the base path kept verbatim, trailing slash included)
and `'world'` to `/hello/world`; and for every base whose path does not end
in `/`, a path of solely `'.'` or `'./'` resolves to the directory of the
base (its last segment dropped, leaving a trailing slash). -/
theorem c3_resolution :
    resolveFetch "http://api.example.com" "" = some "http://api.example.com/" ∧
    resolveFetch "http://api.example.com" "." = some "http://api.example.com/" ∧
    resolveFetch "http://api.example.com" "./" = some "http://api.example.com/" ∧
    resolveFetch "http://api.example.com/hello" "" = some "http://api.example.com/hello" ∧
    resolveFetch "http://api.example.com/hello" "world" = some "http://api.example.com/world" ∧
    resolveFetch "http://api.example.com/hello/" "" = some "http://api.example.com/hello/" ∧
    resolveFetch "http://api.example.com/hello/" "world" =
      some "http://api.example.com/hello/world" ∧
    (∀ (sch host : String) (segs : List String), segs ≠ [] → segs.getLast? ≠ some "" →
      newURL "." ⟨sch, host, segs⟩ = ⟨sch, host, segs.dropLast ++ [""]⟩ ∧
      newURL "./" ⟨sch, host, segs⟩ = ⟨sch, host, segs.dropLast ++ [""]⟩) := by
  refine ⟨by decide, by decide, by decide, by decide, by decide, by decide, by decide, ?_⟩
  intro sch host segs _ _
  exact ⟨rfl, rfl⟩

/-- C3 witness: the directory rule applied at base path `/a/b`. -/
theorem c3_witness :
    newURL "." ⟨"http", "api.example.com", ["a", "b"]⟩ =
      ⟨"http", "api.example.com", ["a", ""]⟩ :=
  (c3_resolution.2.2.2.2.2.2.2 "http" "api.example.com" ["a", "b"]
    (by decide) (by decide)).1

/-- Stripping trailing slashes removes only `/` characters at the end of the
string: the original is the stripped string followed by some run of
slashes. -/
theorem stripTrailingSlashes_spec (s : String) :
    ∃ n, s.data = (stripTrailingSlashes s).data ++ List.replicate n '/' := by
  refine ⟨(s.data.reverse.takeWhile (fun c => c == '/')).length, ?_⟩
  have htd := List.takeWhile_append_dropWhile (p := fun c => c == '/') (l := s.data.reverse)
  have hrep : s.data.reverse.takeWhile (fun c => c == '/') =
      List.replicate (s.data.reverse.takeWhile (fun c => c == '/')).length '/' := by
    refine List.eq_replicate_of_mem ?_
    intro b hb
    have hpb := List.mem_takeWhile_imp hb
    simpa using hpb
  calc s.data = s.data.reverse.reverse := by simp
    _ = (s.data.reverse.takeWhile (fun c => c == '/') ++
          s.data.reverse.dropWhile (fun c => c == '/')).reverse := by rw [htd]
    _ = (s.data.reverse.dropWhile (fun c => c == '/')).reverse ++
          (s.data.reverse.takeWhile (fun c => c == '/')).reverse := by
        rw [List.reverse_append]
    _ = (stripTrailingSlashes s).data ++
          (List.replicate (s.data.reverse.takeWhile (fun c => c == '/')).length '/').reverse := by
        rw [← hrep]; rfl
    _ = (stripTrailingSlashes s).data ++
          List.replicate (s.data.reverse.takeWhile (fun c => c == '/')).length '/' := by
        rw [List.reverse_replicate]

/-- C2: the typed client's URL resolution (modelled from the spec, its
implementation file being absent from the sources). A path matching the
absolute-URL pattern (optional scheme followed by `//`) is used verbatim as
the resolved URL; for every non-absolute, non-empty path the result is the
base with its trailing slashes stripped — no path segment of the base is
removed, only trailing `/` characters — joined by exactly one slash to the
path with its leading slashes stripped; concretely, base `http://h/hello`
joined with `world` yields `http://h/hello/world`. -/
theorem c2_resolution :
    (∀ base path, isAbsoluteURL path = true → resolveAxios base path = path) ∧
    (∀ base path, isAbsoluteURL path = false → path ≠ "" →
      resolveAxios base path = stripTrailingSlashes base ++ "/" ++ stripLeadingSlashes path ∧
      ∃ n, base.data = (stripTrailingSlashes base).data ++ List.replicate n '/') ∧
    resolveAxios "http://h/hello" "world" = "http://h/hello/world" := by
  refine ⟨?_, ?_, by decide⟩
  · intro base path h
    simp [resolveAxios, h]
  · intro base path h1 h2
    exact ⟨by simp [resolveAxios, h1, h2], stripTrailingSlashes_spec base⟩

/-- C2 witness: the verbatim rule at an absolute path and the join rule at a
base with trailing slashes and a path with leading slashes. -/
theorem c2_witness :
    resolveAxios "http://h" "https://cdn/x" = "https://cdn/x" ∧
    resolveAxios "http://h/a//" "/b" = "http://h/a/b" := by
  refine ⟨c2_resolution.1 "http://h" "https://cdn/x" (by decide), ?_⟩
  have h := (c2_resolution.2.1 "http://h/a//" "/b" (by decide) (by decide)).1
  rw [h]
  decide

/-- C6: the typed client's response decoding (modelled from the spec, its
implementation file being absent from the sources) dispatches on the
content-type prefix in priority order — `text/plain` yields text,
`application/json` a parsed JSON value, `multipart/form-data` structured form
data, `application/x-www-form-urlencoded` a parsed key/value parameter
collection, and anything else, an absent content-type included, a binary blob
tagging its own content-type (a generic octet-stream type when absent); with
parse disabled the raw unconsumed body stream handle is returned. -/
theorem c6_decode :
    ∀ r : Resp,
      decodeTyped false r = .stream ∧
      (ctStartsWith r.contentType "text/plain" = true → decodeTyped true r = .text r.raw) ∧
      (ctStartsWith r.contentType "text/plain" = false →
        ctStartsWith r.contentType "application/json" = true →
        decodeTyped true r = .json r.raw) ∧
      (ctStartsWith r.contentType "text/plain" = false →
        ctStartsWith r.contentType "application/json" = false →
        ctStartsWith r.contentType "multipart/form-data" = true →
        decodeTyped true r = .formData r.raw) ∧
      (ctStartsWith r.contentType "text/plain" = false →
        ctStartsWith r.contentType "application/json" = false →
        ctStartsWith r.contentType "multipart/form-data" = false →
        ctStartsWith r.contentType "application/x-www-form-urlencoded" = true →
        decodeTyped true r = .params r.raw) ∧
      (ctStartsWith r.contentType "text/plain" = false →
        ctStartsWith r.contentType "application/json" = false →
        ctStartsWith r.contentType "multipart/form-data" = false →
        ctStartsWith r.contentType "application/x-www-form-urlencoded" = false →
        decodeTyped true r = .blob (r.contentType.getD "application/octet-stream") r.raw) ∧
      (r.contentType = none →
        decodeTyped true r = .blob "application/octet-stream" r.raw) := by
  intro r
  refine ⟨rfl, ?_, ?_, ?_, ?_, ?_, ?_⟩
  · intro h1
    simp [decodeTyped, h1]
  · intro h1 h2
    simp [decodeTyped, h1, h2]
  · intro h1 h2 h3
    simp [decodeTyped, h1, h2, h3]
  · intro h1 h2 h3 h4
    simp [decodeTyped, h1, h2, h3, h4]
  · intro h1 h2 h3 h4
    simp [decodeTyped, h1, h2, h3, h4]
  · intro h1
    simp [decodeTyped, ctStartsWith, h1]

/-- C6 witness: an `image/jpeg` response decodes to a blob reporting
`image/jpeg`, a response without content-type to a generic octet-stream blob,
and a `text/plain; charset=utf-8` response to text. -/
theorem c6_witness :
    decodeTyped true ⟨200, some "image/jpeg", "IMG"⟩ = .blob "image/jpeg" "IMG" ∧
    decodeTyped true ⟨200, none, "BIN"⟩ = .blob "application/octet-stream" "BIN" ∧
    decodeTyped true ⟨200, some "text/plain; charset=utf-8", "hi"⟩ = .text "hi" := by
  refine ⟨?_, ?_, ?_⟩
  · exact ((c6_decode ⟨200, some "image/jpeg", "IMG"⟩).2.2.2.2.2.1
      (by decide) (by decide) (by decide) (by decide)).trans (by decide)
  · exact (c6_decode ⟨200, none, "BIN"⟩).2.2.2.2.2.2 rfl
  · exact (c6_decode ⟨200, some "text/plain; charset=utf-8", "hi"⟩).2.1 (by decide)

/-- C5: the typed client's body serialization (modelled from the spec, its
implementation file being absent from the sources). For a plain mapping,
ordered sequence, boxed string, number or boolean, or null, the body is
serialized as JSON text, and `content-type: application/json` is set only if
no content-type header is already present in the merged headers; headers
already carrying a content-type are preserved unchanged. -/
theorem c5_json_body :
    ∀ (headers : List (String × String)) (b : ReqBody), isJsonLike b = true →
      (serializeTyped headers b).1 = jsonStringify (jsonOf b) ∧
      (hasContentType headers = true → (serializeTyped headers b).2 = headers) ∧
      (hasContentType headers = false →
        (serializeTyped headers b).2 = headers ++ [("content-type", "application/json")]) := by
  intro headers b hb
  cases b <;> simp_all [serializeTyped, jsonOf, isJsonLike]

/-- C5 witness: an empty mapping serializes to `{}`; with a content-type
already present the headers are preserved unchanged, and without one the JSON
content-type is appended. -/
theorem c5_witness :
    (serializeTyped [("content-type", "text/plain")] (.mapping [])).2 =
      [("content-type", "text/plain")] ∧
    (serializeTyped [] (.mapping [])).2 = [("content-type", "application/json")] ∧
    (serializeTyped [] (.mapping [])).1 = jsonStringify (jsonOf (.mapping [])) := by
  refine ⟨(c5_json_body [("content-type", "text/plain")] (.mapping []) rfl).2.1 (by decide),
    ((c5_json_body [] (.mapping []) rfl).2.2 rfl).trans (by decide),
    (c5_json_body [] (.mapping []) rfl).1⟩

/-- Text without `{` passes through the placeholder scanner unchanged. -/
theorem substScan_no_brace (ps : List (String × String)) :
    ∀ s : List Char, '{' ∉ s → substScan ps s none = s := by
  intro s
  induction s with
  | nil => intro _; rfl
  | cons c rest ih =>
    intro hs
    have hc : ¬c = '{' := fun hceq => hs (hceq ▸ List.mem_cons_self c rest)
    have hrest : '{' ∉ rest := fun hm => hs (List.mem_cons_of_mem c hm)
    simp [substScan, hc, ih hrest]

/-- Inside a placeholder, the scanner reads the name up to the first `}` and
replaces it. -/
theorem substScan_inside (ps : List (String × String)) :
    ∀ (name acc rest : List Char), '}' ∉ name →
      substScan ps (name ++ '}' :: rest) (some acc) =
        replFor ps (acc.reverse ++ name) ++ substScan ps rest none := by
  intro name
  induction name with
  | nil =>
    intro acc rest _
    simp [substScan]
  | cons c name2 ih =>
    intro acc rest hn
    have hc : ¬c = '}' := fun hceq => hn (hceq ▸ List.mem_cons_self c name2)
    have hname2 : '}' ∉ name2 := fun hm => hn (List.mem_cons_of_mem c hm)
    calc substScan ps ((c :: name2) ++ '}' :: rest) (some acc)
        = substScan ps (name2 ++ '}' :: rest) (some (c :: acc)) := by
          simp [substScan, hc]
      _ = replFor ps ((c :: acc).reverse ++ name2) ++ substScan ps rest none :=
          ih (c :: acc) rest hname2
      _ = replFor ps (acc.reverse ++ c :: name2) ++ substScan ps rest none := by
          rw [List.reverse_cons, List.append_assoc]
          rfl

/-- A `{name}` placeholder surrounded by brace-free text is replaced in
place, the surrounding text kept unchanged. -/
theorem substScan_placeholder (ps : List (String × String)) :
    ∀ (pre name rest : List Char), '{' ∉ pre → '}' ∉ name →
      substScan ps (pre ++ '{' :: name ++ '}' :: rest) none =
        pre ++ replFor ps name ++ substScan ps rest none := by
  intro pre
  induction pre with
  | nil =>
    intro name rest _ hn
    have := substScan_inside ps name [] rest hn
    simpa [substScan] using this
  | cons c pre2 ih =>
    intro name rest hp hn
    have hc : ¬c = '{' := fun hceq => hp (hceq ▸ List.mem_cons_self c pre2)
    have hpre2 : '{' ∉ pre2 := fun hm => hp (List.mem_cons_of_mem c hm)
    calc substScan ps ((c :: pre2) ++ '{' :: name ++ '}' :: rest) none
        = c :: substScan ps (pre2 ++ '{' :: name ++ '}' :: rest) none := by
          simp [substScan, hc]
      _ = c :: (pre2 ++ replFor ps name ++ substScan ps rest none) := by
          rw [ih name rest hpre2 hn]
      _ = (c :: pre2) ++ replFor ps name ++ substScan ps rest none := by
          simp

/-- C4: path-template substitution of the typed client (modelled from the
spec, its implementation file being absent from the sources). Placeholders
written `{name}` in the path or the base URL are substituted before URL
resolution; each placeholder whose name is in the merged path-parameter map
is replaced by the URI-encoded value, and a placeholder with no matching
value is left intact unchanged rather than raising an error. -/
theorem c4_placeholders :
    (∀ (ps : List (String × String)) (baseUrl path : String),
      urlResolveTyped ps baseUrl path =
        resolveAxios (substitutePath ps baseUrl) (substitutePath ps path)) ∧
    (∀ (ps : List (String × String)) (pre name rest : List Char), '{' ∉ pre → '}' ∉ name →
      substScan ps (pre ++ '{' :: name ++ '}' :: rest) none =
        pre ++ replFor ps name ++ substScan ps rest none) ∧
    (∀ (ps : List (String × String)) (name : List Char) (v : String),
      lookupParam ps (String.mk name) = some v →
      replFor ps name = (encodeURIComponent v).data) ∧
    (∀ (ps : List (String × String)) (name : List Char),
      lookupParam ps (String.mk name) = none →
      replFor ps name = '{' :: name ++ ['}']) := by
  refine ⟨fun ps baseUrl path => rfl, substScan_placeholder, ?_, ?_⟩
  · intro ps name v h
    simp [replFor, h]
  · intro ps name h
    simp [replFor, h]

/-- C4 witness: substituting `{id}` with value `a b` inside `users/.../x`
URI-encodes the value; a `{missing}` placeholder with no value stays
intact. -/
theorem c4_witness :
    substScan [("id", "a b")] ("users/".data ++ '{' :: "id".data ++ '}' :: "/x".data) none =
      "users/".data ++ replFor [("id", "a b")] "id".data ++
        substScan [("id", "a b")] "/x".data none ∧
    replFor [("id", "a b")] "id".data = (encodeURIComponent "a b").data ∧
    replFor [("id", "a b")] "missing".data = '{' :: "missing".data ++ ['}'] := by
  refine ⟨c4_placeholders.2.1 [("id", "a b")] "users/".data "id".data "/x".data
      (by decide) (by decide),
    c4_placeholders.2.2.1 [("id", "a b")] "id".data "a b" (by decide),
    c4_placeholders.2.2.2 [("id", "a b")] "missing".data (by decide)⟩

/-- The waits a loop run performs are exactly `delayFor` of the consecutive
attempt indices it visited, appended to what was accumulated before. -/
theorem loopAux_delays (fetchFn : Nat → FetchResult) (cfg : CallCfg) :
    ∀ (fuel attempt : Nat) (prev : Option Resp) (acc : List Nat),
      ∃ m ≤ fuel, (loopAux fetchFn cfg fuel attempt prev acc).delays =
        acc.reverse ++ (List.range m).map (fun i => delayFor cfg.retryDelay (attempt + i)) := by
  intro fuel
  induction fuel with
  | zero =>
    intro attempt prev acc
    exact ⟨0, Nat.le_refl 0, by simp [loopAux]⟩
  | succ fuel ih =>
    intro attempt prev acc
    cases hf : fetchFn attempt with
    | err e =>
      refine ⟨1, Nat.one_le_iff_ne_zero.mpr (Nat.succ_ne_zero fuel), ?_⟩
      simp [loopAux, hf, List.range_succ]
    | ok r =>
      by_cases hb : (matchesSet cfg.matchStatus r.status ||
          !(matchesSet cfg.retryStatus r.status)) = true
      · refine ⟨1, Nat.one_le_iff_ne_zero.mpr (Nat.succ_ne_zero fuel), ?_⟩
        simp [loopAux, hf, hb, List.range_succ]
      · obtain ⟨m, hm, hEq⟩ :=
          ih (attempt + 1) (some r) (delayFor cfg.retryDelay attempt :: acc)
        refine ⟨m + 1, Nat.succ_le_succ hm, ?_⟩
        have hstep : loopAux fetchFn cfg (fuel + 1) attempt prev acc =
            loopAux fetchFn cfg fuel (attempt + 1) (some r)
              (delayFor cfg.retryDelay attempt :: acc) := by
          simp [loopAux, hf, hb]
        have hfun : (fun i => delayFor cfg.retryDelay (attempt + 1 + i)) =
            ((fun i => delayFor cfg.retryDelay (attempt + i)) ∘ Nat.succ) :=
          funext fun i => congrArg (delayFor cfg.retryDelay) (by omega)
        rw [hstep, hEq]
        calc (delayFor cfg.retryDelay attempt :: acc).reverse ++
              (List.range m).map (fun i => delayFor cfg.retryDelay (attempt + 1 + i))
            = acc.reverse ++ (delayFor cfg.retryDelay (attempt + 0) ::
                (List.range m).map
                  ((fun i => delayFor cfg.retryDelay (attempt + i)) ∘ Nat.succ)) := by
              rw [hfun, List.reverse_cons, List.append_assoc, Nat.add_zero]
              rfl
          _ = acc.reverse ++
                (List.range (m + 1)).map (fun i => delayFor cfg.retryDelay (attempt + i)) := by
              rw [List.range_succ_eq_map, List.map_cons, List.map_map]

/-- The `clearTimeout` of `src/client.ts` line 231 runs exactly when the loop
exits normally; a transport throw leaves it unexecuted. -/
theorem loopAux_cleared (fetchFn : Nat → FetchResult) (cfg : CallCfg) :
    ∀ (fuel attempt : Nat) (prev : Option Resp) (acc : List Nat),
      (loopAux fetchFn cfg fuel attempt prev acc).timeoutCleared =
        (match (loopAux fetchFn cfg fuel attempt prev acc).outcome with
          | .exited _ => true
          | .threw _ _ => false) := by
  intro fuel
  induction fuel with
  | zero =>
    intro attempt prev acc
    rfl
  | succ fuel ih =>
    intro attempt prev acc
    cases hf : fetchFn attempt with
    | err e => simp [loopAux, hf]
    | ok r =>
      by_cases hb : (matchesSet cfg.matchStatus r.status ||
          !(matchesSet cfg.retryStatus r.status)) = true
      · simp [loopAux, hf, hb]
      · have hstep : loopAux fetchFn cfg (fuel + 1) attempt prev acc =
            loopAux fetchFn cfg fuel (attempt + 1) (some r)
              (delayFor cfg.retryDelay attempt :: acc) := by
          simp [loopAux, hf, hb]
        rw [hstep]
        exact ih (attempt + 1) (some r) (delayFor cfg.retryDelay attempt :: acc)

/-- Characterization of a normal loop exit: either the budget was zero and
the `response` variable kept its entry value, or some attempt `k` within the
budget received the exit response, every earlier attempt received a
non-successful retryable response, and the exit response was successful, or
not retryable, or the budget's final attempt. -/
theorem loopAux_exited (fetchFn : Nat → FetchResult) (cfg : CallCfg) (r : Resp) :
    ∀ (fuel attempt : Nat) (prev : Option Resp) (acc : List Nat),
      (loopAux fetchFn cfg fuel attempt prev acc).outcome = .exited (some r) →
      (fuel = 0 ∧ prev = some r) ∨
      (∃ k, k < fuel ∧ fetchFn (attempt + k) = .ok r ∧
        (loopAux fetchFn cfg fuel attempt prev acc).delays.length = acc.length + k + 1 ∧
        (∀ j, j < k → ∃ rj, fetchFn (attempt + j) = .ok rj ∧
          matchesSet cfg.matchStatus rj.status = false ∧
          matchesSet cfg.retryStatus rj.status = true) ∧
        (matchesSet cfg.matchStatus r.status = true ∨
         matchesSet cfg.retryStatus r.status = false ∨
         (k + 1 = fuel ∧ matchesSet cfg.matchStatus r.status = false ∧
          matchesSet cfg.retryStatus r.status = true))) := by
  intro fuel
  induction fuel with
  | zero =>
    intro attempt prev acc h
    left
    refine ⟨rfl, ?_⟩
    simpa [loopAux] using h
  | succ fuel ih =>
    intro attempt prev acc h
    cases hf : fetchFn attempt with
    | err e =>
      rw [show loopAux fetchFn cfg (fuel + 1) attempt prev acc =
          ⟨.threw prev e, (delayFor cfg.retryDelay attempt :: acc).reverse, false⟩ by
        simp [loopAux, hf]] at h
      exact absurd h (by simp)
    | ok r0 =>
      by_cases hb : (matchesSet cfg.matchStatus r0.status ||
          !(matchesSet cfg.retryStatus r0.status)) = true
      · have hstep : loopAux fetchFn cfg (fuel + 1) attempt prev acc =
            ⟨.exited (some r0), (delayFor cfg.retryDelay attempt :: acc).reverse, true⟩ := by
          simp [loopAux, hf, hb]
        rw [hstep] at h
        have hr : r0 = r := by
          have := h
          simp at this
          exact this
        subst hr
        right
        refine ⟨0, Nat.succ_pos fuel, by simpa using hf, by simp [hstep], ?_, ?_⟩
        · intro j hj
          exact absurd hj (Nat.not_lt_zero j)
        · rcases Bool.or_eq_true_iff.mp hb with hs | hr2
          · exact Or.inl hs
          · exact Or.inr (Or.inl (by simpa using hr2))
      · have hstep : loopAux fetchFn cfg (fuel + 1) attempt prev acc =
            loopAux fetchFn cfg fuel (attempt + 1) (some r0)
              (delayFor cfg.retryDelay attempt :: acc) := by
          simp [loopAux, hf, hb]
        have hflags : matchesSet cfg.matchStatus r0.status = false ∧
            matchesSet cfg.retryStatus r0.status = true := by
          constructor
          · cases hs : matchesSet cfg.matchStatus r0.status
            · rfl
            · exact absurd (by simp [hs]) hb
          · cases hr2 : matchesSet cfg.retryStatus r0.status
            · exact absurd (by simp [hr2]) hb
            · rfl
        rw [hstep] at h
        rcases ih (attempt + 1) (some r0)
            (delayFor cfg.retryDelay attempt :: acc) h with ⟨hfuel0, hprev⟩ | hk
        · have hr : r0 = r := Option.some_inj.mp hprev
          subst hr
          subst hfuel0
          right
          refine ⟨0, Nat.succ_pos 0, by simpa using hf, ?_, ?_, ?_⟩
          · rw [hstep]
            simp [loopAux]
          · intro j hj
            exact absurd hj (Nat.not_lt_zero j)
          · exact Or.inr (Or.inr ⟨rfl, hflags⟩)
        · obtain ⟨k, hkfuel, hok, hlen, hall, hdisj⟩ := hk
          right
          refine ⟨k + 1, Nat.succ_lt_succ hkfuel, ?_, ?_, ?_, ?_⟩
          · rw [show attempt + (k + 1) = attempt + 1 + k by omega]
            exact hok
          · rw [hstep, hlen]
            simp
            omega
          · intro j hj
            cases j with
            | zero => exact ⟨r0, by simpa using hf, hflags.1, hflags.2⟩
            | succ j2 =>
              obtain ⟨rj, hrj, hrj1, hrj2⟩ := hall j2 (by omega)
              exact ⟨rj, by rw [show attempt + (j2 + 1) = attempt + 1 + j2 by omega]; exact hrj,
                hrj1, hrj2⟩
          · rcases hdisj with hs | hr2 | ⟨hke, hflags2⟩
            · exact Or.inl hs
            · exact Or.inr (Or.inl hr2)
            · exact Or.inr (Or.inr ⟨by omega, hflags2⟩)

/-- Characterization of a transport throw at attempt `k` within the budget,
every earlier attempt having received a non-successful retryable response:
the loop stops right there, with the `response` variable still holding its
entry value when `k = 0` and the previous attempt's response otherwise. -/
theorem loopAux_threw (fetchFn : Nat → FetchResult) (cfg : CallCfg) (rs : Nat → Resp)
    (e : String) :
    ∀ (k fuel attempt : Nat) (prev : Option Resp) (acc : List Nat),
      k < fuel →
      fetchFn (attempt + k) = .err e →
      (∀ j, j < k → fetchFn (attempt + j) = .ok (rs (attempt + j)) ∧
        matchesSet cfg.matchStatus (rs (attempt + j)).status = false ∧
        matchesSet cfg.retryStatus (rs (attempt + j)).status = true) →
      (loopAux fetchFn cfg fuel attempt prev acc).outcome =
        .threw (if k = 0 then prev else some (rs (attempt + k - 1))) e ∧
      (loopAux fetchFn cfg fuel attempt prev acc).delays.length = acc.length + k + 1 := by
  intro k
  induction k with
  | zero =>
    intro fuel attempt prev acc hfuel herr _
    cases fuel with
    | zero => exact absurd hfuel (by omega)
    | succ fuel =>
      rw [show attempt + 0 = attempt by omega] at herr
      constructor
      · simp [loopAux, herr]
      · simp [loopAux, herr]
  | succ k ih =>
    intro fuel attempt prev acc hfuel herr hall
    cases fuel with
    | zero => exact absurd hfuel (by omega)
    | succ fuel =>
      obtain ⟨h0, h0s, h0r⟩ := hall 0 (Nat.succ_pos k)
      rw [show attempt + 0 = attempt by omega] at h0 h0s h0r
      have hb : (matchesSet cfg.matchStatus (rs attempt).status ||
          !(matchesSet cfg.retryStatus (rs attempt).status)) = false := by
        simp [h0s, h0r]
      have hstep : loopAux fetchFn cfg (fuel + 1) attempt prev acc =
          loopAux fetchFn cfg fuel (attempt + 1) (some (rs attempt))
            (delayFor cfg.retryDelay attempt :: acc) := by
        simp [loopAux, h0, hb]
      have hih := ih fuel (attempt + 1) (some (rs attempt))
        (delayFor cfg.retryDelay attempt :: acc) (by omega)
        (by rw [show attempt + 1 + k = attempt + (k + 1) by omega]; exact herr)
        (by
          intro j hj
          have := hall (j + 1) (by omega)
          rw [show attempt + (j + 1) = attempt + 1 + j by omega] at this
          exact this)
      rw [hstep]
      refine ⟨hih.1.trans ?_, by rw [hih.2]; simp; omega⟩
      cases k with
      | zero => simp
      | succ k2 =>
        have : attempt + 1 + (k2 + 1) - 1 = attempt + (k2 + 1 + 1) - 1 := by omega
        simp only [Nat.succ_ne_zero, if_false, this]

/-- C7: a response is classified successful iff the success-status set
contains the exact status code or its hundreds digit, and retryable iff the
retry-status set does likewise; the attempt loop runs at most `retry + 1`
attempts, the attempt that produced the exit response is preceded only by
non-successful retryable responses and is itself successful, not retryable,
or the final attempt of the budget; and the final outcome of the call is
decided by the classification of the exit response — successful yields the
result, not successful yields the status error — not by whether retries were
exhausted. -/
theorem c7_classification :
    (∀ (set : List Nat) (status : Nat),
      matchesSet set status = true ↔ status ∈ set ∨ status / 100 ∈ set) ∧
    (∀ (fetchFn : Nat → FetchResult) (cfg : CallCfg),
      (runLoop fetchFn cfg).delays.length ≤ cfg.retry + 1) ∧
    (∀ (fetchFn : Nat → FetchResult) (cfg : CallCfg) (r : Resp),
      (runLoop fetchFn cfg).outcome = .exited (some r) →
      ∃ k, k ≤ cfg.retry ∧ fetchFn k = .ok r ∧
        (runLoop fetchFn cfg).delays.length = k + 1 ∧
        (∀ j, j < k → ∃ rj, fetchFn j = .ok rj ∧
          matchesSet cfg.matchStatus rj.status = false ∧
          matchesSet cfg.retryStatus rj.status = true) ∧
        (matchesSet cfg.matchStatus r.status = true ∨
         matchesSet cfg.retryStatus r.status = false ∨ k = cfg.retry)) ∧
    (∀ (fetchFn : Nat → FetchResult) (cfg : CallCfg) (parse : Bool)
      (ints : List (Resp → Option Resp)) (r : Resp),
      (runLoop fetchFn cfg).outcome = .exited (some r) →
      (matchesSet cfg.matchStatus r.status = true →
        runCall fetchFn cfg parse ints =
          .ok ⟨applyInterceptors ints r, (applyInterceptors ints r).status,
            decodeFetch parse r⟩) ∧
      (matchesSet cfg.matchStatus r.status = false →
        runCall fetchFn cfg parse ints =
          .error ⟨some r, some "status", some r.status, some (decodeFetch parse r)⟩)) := by
  refine ⟨?_, ?_, ?_, ?_⟩
  · intro set status
    simp [matchesSet, List.contains]
  · intro fetchFn cfg
    obtain ⟨m, hm, hEq⟩ := loopAux_delays fetchFn cfg (cfg.retry + 1) 0 none []
    rw [runLoop, hEq]
    simpa using hm
  · intro fetchFn cfg r h
    rcases loopAux_exited fetchFn cfg r (cfg.retry + 1) 0 none [] h with ⟨hfuel0, _⟩ | hk
    · exact absurd hfuel0 (Nat.succ_ne_zero cfg.retry)
    · obtain ⟨k, hkfuel, hok, hlen, hall, hdisj⟩ := hk
      refine ⟨k, by omega, by simpa using hok, by simpa using hlen, ?_, ?_⟩
      · intro j hj
        obtain ⟨rj, hrj, hrj1, hrj2⟩ := hall j hj
        exact ⟨rj, by simpa using hrj, hrj1, hrj2⟩
      · rcases hdisj with hs | hr2 | ⟨hke, _⟩
        · exact Or.inl hs
        · exact Or.inr (Or.inl hr2)
        · exact Or.inr (Or.inr (by omega))
  · intro fetchFn cfg parse ints r h
    constructor
    · intro hs
      simp [runCall, h, hs]
    · intro hs
      simp [runCall, h, hs]

/-- C7 witness: with one retry configured, a first 500 response (retryable,
not successful) is followed by a 200 response whose classification makes the
call succeed. -/
theorem c7_witness :
    runCall (fun k => if k = 0 then .ok resp500 else .ok respJson) cfgRetryOne true [] =
      .ok ⟨applyInterceptors [] respJson, (applyInterceptors [] respJson).status,
        decodeFetch true respJson⟩ :=
  (c7_classification.2.2.2 (fun k => if k = 0 then .ok resp500 else .ok respJson)
    cfgRetryOne true [] respJson rfl).1 (by decide)

/-- C8 counterexample: a call whose transport throws on its only attempt
rejects while the armed timeout handle was never cleared — the `clearTimeout`
of `src/client.ts` line 231 sits after the loop and the `throw` at line 223
bypasses it. -/
theorem c8_counterexample :
    (runLoop fetchFnAlwaysThrow cfgDefault).outcome = .threw none "netdown" ∧
    (runLoop fetchFnAlwaysThrow cfgDefault).timeoutCleared = false := by
  constructor <;> rfl

/-- C8 (amended): the armed timeout handle is cleared on loop exit whenever a
response was received (success or terminal status failure); when the
transport throws, the call rejects without ever clearing the armed timeout
handle. -/
theorem c8_amended :
    ∀ (fetchFn : Nat → FetchResult) (cfg : CallCfg),
      ((∃ r, (runLoop fetchFn cfg).outcome = .exited r) →
        (runLoop fetchFn cfg).timeoutCleared = true) ∧
      (∀ (prev : Option Resp) (e : String),
        (runLoop fetchFn cfg).outcome = .threw prev e →
        (runLoop fetchFn cfg).timeoutCleared = false) := by
  intro fetchFn cfg
  have hcl := loopAux_cleared fetchFn cfg (cfg.retry + 1) 0 none []
  constructor
  · intro ⟨r, hr⟩
    rw [runLoop] at hr ⊢
    rw [hcl, hr]
  · intro prev e he
    rw [runLoop] at he ⊢
    rw [hcl, he]

/-- C8 witness: with a response received, the exit path clears the timeout
handle. -/
theorem c8_witness : (runLoop fetchFnJson cfgDefault).timeoutCleared = true :=
  (c8_amended fetchFnJson cfgDefault).1 ⟨some respJson, rfl⟩

/-- C9: every run of the attempt loop waits exactly `delayFor` of the
consecutive attempt indices it visits, and `delayFor` is `0` before attempt
`0`, `retryDelay[k-1]` before a later attempt `k` whose index `k-1` is within
the sequence, and the last element of the non-empty sequence for every
attempt index beyond its length. -/
theorem c9_delays :
    (∀ (fetchFn : Nat → FetchResult) (cfg : CallCfg),
      ∃ m ≤ cfg.retry + 1,
        (runLoop fetchFn cfg).delays = (List.range m).map (delayFor cfg.retryDelay)) ∧
    (∀ rd : List Nat, delayFor rd 0 = 0) ∧
    (∀ (rd : List Nat) (k : Nat) (d : Nat), 1 ≤ k → rd.get? (k - 1) = some d →
      delayFor rd k = d) ∧
    (∀ (rd : List Nat) (k : Nat) (h : rd ≠ []), 1 ≤ k → rd.length ≤ k - 1 →
      delayFor rd k = rd.getLast h) := by
  refine ⟨?_, fun rd => rfl, ?_, ?_⟩
  · intro fetchFn cfg
    obtain ⟨m, hm, hEq⟩ := loopAux_delays fetchFn cfg (cfg.retry + 1) 0 none []
    refine ⟨m, hm, ?_⟩
    rw [runLoop, hEq]
    simp
  · intro rd k d hk hget
    have hkne : ¬k = 0 := by omega
    rw [List.get?_eq_getElem?] at hget
    simp [delayFor, hkne, hget]
  · intro rd k h hk hlen
    have hkne : ¬k = 0 := by omega
    have hget : rd.get? (k - 1) = none := List.get?_eq_none.mpr hlen
    rw [List.get?_eq_getElem?] at hget
    simp [delayFor, hkne, hget]
    rw [List.getLast?_eq_getLast rd h]
    rfl

/-- C9 witness: the delay formula applied at concrete indices — `0` before
attempt 0 via a run of the loop, the in-range element before attempt 2, and
the last element before attempt 5. -/
theorem c9_witness :
    delayFor [5, 7] 0 = 0 ∧ delayFor [5, 7] 2 = 7 ∧ delayFor [5, 7] 5 = 7 := by
  refine ⟨c9_delays.2.1 [5, 7], ?_, ?_⟩
  · exact c9_delays.2.2.1 [5, 7] 2 7 (by omega) (by decide)
  · exact (c9_delays.2.2.2 [5, 7] 5 (by decide) (by omega) (by decide)).trans (by decide)

/-- C1 counterexample: with one retry configured, a first attempt that
receives a retryable 500 response followed by a second attempt whose
transport throws rejects with a `FetchError` whose `response` field holds the
earlier 500 response — not "no response": `throw new FetchError(request,
response, error, ...)` at `src/client.ts` line 223 passes the `response`
variable, which still holds the previous attempt's response. -/
theorem c1_counterexample :
    runCall fetchFnRetryThenThrow cfgRetryOne true [] =
      .error ⟨some resp500, some "boom", none, none⟩ ∧
    (some resp500 : Option Resp) ≠ none := ⟨rfl, by decide⟩

/-- C1 (amended): when the transport throws at attempt `k` within the budget,
every earlier attempt having received a non-successful retryable response,
the call does not retry — the loop stops at attempt `k` — and rejects with a
`FetchError` that carries no status and no body and the thrown value as its
cause; the error's `response` field is absent when the failure occurs on
attempt 0 and holds the previous attempt's response on every later
attempt. -/
theorem c1_amended :
    ∀ (fetchFn : Nat → FetchResult) (cfg : CallCfg) (parse : Bool)
      (ints : List (Resp → Option Resp)) (rs : Nat → Resp) (k : Nat) (e : String),
      k ≤ cfg.retry →
      fetchFn k = .err e →
      (∀ j, j < k → fetchFn j = .ok (rs j) ∧
        matchesSet cfg.matchStatus (rs j).status = false ∧
        matchesSet cfg.retryStatus (rs j).status = true) →
      (runLoop fetchFn cfg).delays.length = k + 1 ∧
      runCall fetchFn cfg parse ints =
        .error ⟨if k = 0 then none else some (rs (k - 1)), some e, none, none⟩ := by
  intro fetchFn cfg parse ints rs k e hk herr hall
  have hth := loopAux_threw fetchFn cfg rs e k (cfg.retry + 1) 0 none []
    (by omega) (by simpa using herr)
    (by intro j hj; simpa using hall j hj)
  refine ⟨by simpa using hth.2, ?_⟩
  have hout : (runLoop fetchFn cfg).outcome =
      .threw (if k = 0 then none else some (rs (k - 1))) e := by
    rw [runLoop]
    rw [hth.1]
    cases k with
    | zero => rfl
    | succ k2 =>
      simp only [Nat.succ_ne_zero, if_false, Nat.zero_add]
  simp [runCall, hout]

/-- C1 witness: the amended statement at the counterexample's input — attempt
0 receives a retryable 500, attempt 1 throws, the loop has run exactly two
attempts and the error carries the 500 response, the cause and no status. -/
theorem c1_witness :
    (runLoop fetchFnRetryThenThrow cfgRetryOne).delays.length = 2 ∧
    runCall fetchFnRetryThenThrow cfgRetryOne true [] =
      .error ⟨some resp500, some "boom", none, none⟩ := by
  have h := c1_amended fetchFnRetryThenThrow cfgRetryOne true [] (fun _ => resp500) 1 "boom"
    (by decide) (by decide)
    (by
      intro j hj
      have hj0 : j = 0 := by omega
      subst hj0
      exact ⟨rfl, by decide, by decide⟩)
  exact ⟨h.1, h.2.trans rfl⟩

/-- C10: every successful call's result takes its `status` field from the
response produced by the response interceptor chain, while its `body` field
is the value decoded from the final response before the interceptors ran, so
the two can correspond to different `Response` objects. -/
theorem c10_interceptor_fields :
    ∀ (fetchFn : Nat → FetchResult) (cfg : CallCfg) (parse : Bool)
      (ints : List (Resp → Option Resp)) (out : FetchResponseM),
      runCall fetchFn cfg parse ints = .ok out →
      ∃ r, (runLoop fetchFn cfg).outcome = .exited (some r) ∧
        matchesSet cfg.matchStatus r.status = true ∧
        out.response = applyInterceptors ints r ∧
        out.status = (applyInterceptors ints r).status ∧
        out.body = decodeFetch parse r := by
  intro fetchFn cfg parse ints out h
  cases hout : (runLoop fetchFn cfg).outcome with
  | threw prev e =>
    rw [show runCall fetchFn cfg parse ints =
        .error ⟨prev, some e, none, none⟩ by simp [runCall, hout]] at h
    exact absurd h (by simp)
  | exited ro =>
    cases ro with
    | none =>
      rw [show runCall fetchFn cfg parse ints =
          .error ⟨none, none, none, none⟩ by simp [runCall, hout]] at h
      exact absurd h (by simp)
    | some r =>
      by_cases hs : matchesSet cfg.matchStatus r.status = true
      · rw [show runCall fetchFn cfg parse ints =
            .ok ⟨applyInterceptors ints r, (applyInterceptors ints r).status,
              decodeFetch parse r⟩ by simp [runCall, hout, hs]] at h
        have hfields := Except.ok.inj h
        exact ⟨r, rfl, hs, by rw [← hfields], by rw [← hfields], by rw [← hfields]⟩
      · rw [show runCall fetchFn cfg parse ints =
            .error ⟨some r, some "status", some r.status, some (decodeFetch parse r)⟩ by
          simp [runCall, hout, hs]] at h
        exact absurd h (by simp)

/-- C10 witness: a replacing interceptor makes the result report status 299
from the replacement response while the body is the JSON decoded from the
original 200 response. -/
theorem c10_witness :
    ∃ r, (runLoop fetchFnJson cfgRetryOne).outcome = .exited (some r) ∧
      matchesSet cfgRetryOne.matchStatus r.status = true ∧
      (⟨⟨299, none, "replaced"⟩, 299, .json "[]"⟩ : FetchResponseM).response =
        applyInterceptors intsReplace r ∧
      (⟨⟨299, none, "replaced"⟩, 299, .json "[]"⟩ : FetchResponseM).status =
        (applyInterceptors intsReplace r).status ∧
      (⟨⟨299, none, "replaced"⟩, 299, .json "[]"⟩ : FetchResponseM).body =
        decodeFetch true r :=
  c10_interceptor_fields fetchFnJson cfgRetryOne true intsReplace
    ⟨⟨299, none, "replaced"⟩, 299, .json "[]"⟩ rfl

end FetchTools
